import Mathlib

/-!
Verification development for the visualchg extension (constraint-hypergraph
editor).  The definitions below are a shallow embedding of the TypeScript
sources:

* `src/chgOutlineProvider.ts` — the schema-normalizing parser `parseChgData`
  and the `ChgData` model;
* `src/chgState.ts` — the view-state store (`setData` frame auto-selection,
  the simulation-path field);
* `src/chgSimulateProvider.ts` — `_simulate` / `_writeSimulationResult` and
  the data-change invalidation handler;
* `src/chgDetailsProvider.ts` — `_getNodeValue` and `_updateNode` (rename
  propagation);
* `src/chgEditorProvider.ts` — `buildElements` and `applySimPath` of the
  webview script.

JSON values are modeled by the inductive `Json`.  JavaScript numbers are
modeled as `Int` (none of the verified code performs float arithmetic on
them; numeric values are only stored, compared to `0` for truthiness, or
stringified).  A missing property / `undefined` is `Option.none`; the JSON
value `null` is `Json.null`.  Mutation of the raw document object is modeled
by explicit reconstruction of the updated value.
-/

/-- A JSON value as produced by `JSON.parse`.  `num` carries an `Int`
(sufficient for every integer literal exercised here). -/
inductive Json where
  | null
  | bool (b : Bool)
  | num (n : Int)
  | str (s : String)
  | arr (elems : List Json)
  | obj (fields : List (String × Json))

/-- First-match lookup in an object's field list (JS objects have unique
keys, so first-match agrees with JS property lookup). -/
def lookupField : List (String × Json) → String → Option Json
  | [], _ => none
  | (k', v) :: rest, k => if k' = k then some v else lookupField rest k

/-- Property read `j[k]`: `none` models JS `undefined` (reads on non-object
primitives also yield `undefined`). -/
def jGet : Json → String → Option Json
  | .obj fields, k => lookupField fields k
  | _, _ => none

/-- JS property assignment `o[k] = v` on an object: replace the value at an
existing key in place, otherwise append the key.  On non-objects the
assignment has no observable effect on the stored document. -/
def insertField : List (String × Json) → String → Json → List (String × Json)
  | [], k, v => [(k, v)]
  | (k', w) :: rest, k, v =>
    if k' = k then (k, v) :: rest else (k', w) :: insertField rest k v

def jSet (j : Json) (k : String) (v : Json) : Json :=
  match j with
  | .obj fields => .obj (insertField fields k v)
  | other => other

/-- JS `delete o[k]`. -/
def eraseField : List (String × Json) → String → List (String × Json)
  | [], _ => []
  | (k', v) :: rest, k =>
    if k' = k then eraseField rest k else (k', v) :: eraseField rest k

def jErase (j : Json) (k : String) : Json :=
  match j with
  | .obj fields => .obj (eraseField fields k)
  | other => other

/-- Assigning a possibly-`undefined` value: `o[k] = undefined` disappears on
`JSON.stringify`, so it is modeled as a delete. -/
def jSetOpt (j : Json) (k : String) (v : Option Json) : Json :=
  match v with
  | some w => jSet j k w
  | none => jErase j k

/-- The nullish-coalescing operator `a ?? b` (falls through on `undefined`
and on `null`). -/
def jNullish (a b : Option Json) : Option Json :=
  match a with
  | none => b
  | some .null => b
  | some v => some v

/-- Nullish-aware property read: `none` when the property is missing or
holds `null` (used to model `raw.hypergraph ?? raw`). -/
def jGetNN (j : Json) (k : String) : Option Json :=
  match jGet j k with
  | some .null => none
  | r => r

/-- JS truthiness of a possibly-`undefined` value. -/
def jTruthy : Option Json → Bool
  | none => false
  | some .null => false
  | some (.bool b) => b
  | some (.num n) => !(n = 0)
  | some (.str s) => !(s = "")
  | some (.arr _) => true
  | some (.obj _) => true

/-- `typeof v === 'object' && v` — objects and arrays qualify (`null` is
excluded by the truthiness conjunct). -/
def jIsObjLike : Json → Bool
  | .obj _ => true
  | .arr _ => true
  | _ => false

/-- Whether a JSON value is the literal `null` (a property read on it
throws a TypeError). -/
def jsonIsNull : Json → Bool
  | .null => true
  | _ => false

/-- `v === s` for a string literal `s`: strict equality only holds for a
string value. -/
def jStrEq : Option Json → String → Bool
  | some (.str x), s => x = s
  | _, _ => false

/-- `Object.entries(v)`: field list of an object, indexed elements of an
array, empty otherwise. -/
def jEntries : Json → List (String × Json)
  | .obj fields => fields
  | .arr xs => (xs.enum.map fun p => (toString p.1, p.2))
  | _ => []

mutual
/-- JS `String(v)` conversion for the values this code stringifies. -/
def jsString : Json → String
  | .null => "null"
  | .bool true => "true"
  | .bool false => "false"
  | .num n => toString n
  | .str s => s
  | .arr xs => String.intercalate "," (jsStringArrElems xs)
  | .obj _ => "[object Object]"
/-- `Array.prototype.join(",")` maps `null`/`undefined` elements to `""`. -/
def jsStringArrElems : List Json → List String
  | [] => []
  | .null :: xs => "" :: jsStringArrElems xs
  | x :: xs => jsString x :: jsStringArrElems xs
end

/-! ### The canonical model (`ChgData`, chgOutlineProvider.ts) -/

/-- Canonical node.  Fields that the TS interface leaves optional (and that
the normalizer copies verbatim from the raw object) are `Option Json`. -/
structure ChgNode where
  label : String
  value : Option Json
  is_constant : Option Json
  description : Option Json
  units : Option Json
  constant : Option Json

structure ChgSource where
  handle : String
  label : String

structure ChgEdge where
  label : String
  weight : Option Json
  constant : Option Json
  sources : List ChgSource
  target : String
  rel : Option Json

/-- Canonical document model.  `frames` maps frame name to a map from node
label to the (always-sequence) value list. -/
structure ChgData where
  nodes : List ChgNode
  edges : List ChgEdge
  frames : List (String × List (String × List Json))
  frameNames : List String

/-- Node normalization (the body of the `for (const n of hg.nodes)` loop in
`parseChgData`): kept only when `typeof n?.label === 'string'`; the single
constant flag is `n.is_constant ?? n.constant` and is exposed through both
canonical fields. -/
def parseNodeOne (n : Json) : Option ChgNode :=
  match jGet n "label" with
  | some (.str l) =>
    let isConst := jNullish (jGet n "is_constant") (jGet n "constant")
    some { label := l
           value := jGet n "value"
           is_constant := isConst
           description := jGet n "description"
           units := jGet n "units"
           constant := isConst }
  | _ => none

def parseNodes (xs : List Json) : List ChgNode :=
  xs.filterMap parseNodeOne

/-- Source normalization: an array of labels gets stringified positional
handles; an object keeps its handles verbatim; anything else yields no
sources. -/
def parseSources (rawSources : Option Json) : List ChgSource :=
  match rawSources with
  | some (.arr xs) => xs.enum.map fun p => ⟨toString p.1, jsString p.2⟩
  | some (.obj kvs) => kvs.map fun p => ⟨p.1, jsString p.2⟩
  | _ => []

/-- Edge normalization: skipped without a string `label`; `source_nodes`
preferred over legacy `sources`; `weight` preferred over legacy `cost`;
non-string `target` coerced to `""`. -/
def parseEdgeOne (e : Json) : Option ChgEdge :=
  match jGet e "label" with
  | some (.str l) =>
    some { label := l
           weight := jNullish (jGet e "weight") (jGet e "cost")
           constant := jGet e "constant"
           sources := parseSources (jNullish (jGet e "source_nodes") (jGet e "sources"))
           target := match jGet e "target" with
                     | some (.str t) => t
                     | _ => ""
           rel := jGet e "rel" }
  | _ => none

def parseEdges (xs : List Json) : List ChgEdge :=
  xs.filterMap parseEdgeOne

/-- Frame-entry normalization: a bare scalar is wrapped into a one-element
sequence. -/
def parseFrameEntries (entries : List (String × Json)) : List (String × List Json) :=
  entries.map fun p =>
    (p.1, match p.2 with
          | .arr xs => xs
          | v => [v])

/-- Frame normalization: a frame whose data is not object-like is skipped;
`frameNames` records the kept frames in order. -/
def parseFrames : List (String × Json) → List (String × List (String × List Json)) × List String
  | [] => ([], [])
  | (fn, fd) :: rest =>
    let r := parseFrames rest
    if jIsObjLike fd then ((fn, parseFrameEntries (jEntries fd)) :: r.1, fn :: r.2)
    else r

/-- `parseChgData` after `JSON.parse` succeeded.  The one raw value on which
the body itself throws (and is caught, yielding `null`) is the JSON literal
`null`: `raw.hypergraph` is a TypeError on `null`.  Every other value flows
through the tolerant normalizer. -/
def parseChgData (raw : Json) : Option ChgData :=
  match raw with
  | .null => none
  | _ =>
    let hg := (jGetNN raw "hypergraph").getD raw
    let nodes := match jGet hg "nodes" with
                 | some (.arr xs) => parseNodes xs
                 | _ => []
    let edges := match jGet hg "edges" with
                 | some (.arr xs) => parseEdges xs
                 | _ => []
    let fr := match jGet raw "frames" with
              | some f => if jIsObjLike f then parseFrames (jEntries f) else ([], [])
              | none => ([], [])
    some { nodes := nodes, edges := edges, frames := fr.1, frameNames := fr.2 }

/-- Text-level parse: `none` as input stands for text that `JSON.parse`
rejects (the catch-all returns `null`). -/
def parseChgDataText (input : Option Json) : Option ChgData :=
  match input with
  | none => none
  | some j => parseChgData j

/-- `ChgOutlineProvider.loadFromDocument`: on parse success the model is
replaced, on failure the previous model is kept; the boolean is the return
value. -/
def loadFromDocument (prev : Option ChgData) (input : Option Json) :
    Option ChgData × Bool :=
  match parseChgDataText input with
  | some d => (some d, true)
  | none => (prev, false)

/-! ### The view-state store (chgState.ts) -/

/-- The simulation-path field of `ChgState` (`SimPath` in chgState.ts);
`Option SimPathT` models the nullable TS type.  `cost`/counts are numbers
that are only stored and displayed, modeled as `Int`. -/
structure SimPathT where
  targetNode : String
  nodes : List String
  edges : List String
  cost : Int
  numEdges : Int
  numNodes : Int

/-- `s` is JS-falsy as a nullable string (`null` or `""`). -/
def strFalsy : Option String → Bool
  | none => true
  | some s => s = ""

/-- The `_currentFrame` update performed by `ChgState.setData`: with a
non-null snapshot owning at least one frame name, a falsy or no-longer-valid
current frame snaps to the first frame name; a null snapshot clears the
current frame; otherwise it is untouched. -/
def setDataFrame (data : Option ChgData) (cur : Option String) : Option String :=
  match data with
  | some d =>
    if 0 < d.frameNames.length then
      if strFalsy cur || !(d.frameNames.contains (cur.getD "")) then d.frameNames.head?
      else cur
    else cur
  | none => none

/-! ### Simulation-path invalidation (chgSimulateProvider.ts, onDataChange) -/

/-- Whether `sp.targetNode` occurs among the snapshot's node labels
(`this.state.data?.nodes.some(n => n.label === sp.targetNode) ?? false`). -/
def targetPresent (data : Option ChgData) (target : String) : Bool :=
  match data with
  | some d => d.nodes.any fun n => n.label = target
  | none => false

/-- The `onDataChange` handler in `ChgSimulateProvider.resolveWebviewView`:
an active simulation path is cleared exactly when its target node is gone
from the new snapshot. -/
def simPathAfterDataChange (data : Option ChgData) (sp : Option SimPathT) :
    Option SimPathT :=
  match sp with
  | none => none
  | some p => if targetPresent data p.targetNode then some p else none

/-! ### Effective node value (chgDetailsProvider.ts, `_getNodeValue`) -/

/-- Lookup of a frame map by name in the canonical model. -/
def lookupFrame : List (String × List (String × List Json)) → String →
    Option (List (String × List Json))
  | [], _ => none
  | (k, v) :: rest, cf => if k = cf then some v else lookupFrame rest cf

/-- Lookup of a node's entry inside one frame map. -/
def lookupEntry : List (String × List Json) → String → Option (List Json)
  | [], _ => none
  | (k, v) :: rest, l => if k = l then some v else lookupEntry rest l

/-- `ChgDetailsProvider._getNodeValue`: a truthy constant flag reads
`node.value`; otherwise the active frame's entry for the node's label (first
element of the stored sequence) with `node.value` as the legacy fallback.
A frame map, once present, is a JS object and hence truthy. -/
def getNodeValue (node : ChgNode) (currentFrame : Option String)
    (data : Option ChgData) : Option Json :=
  if jTruthy (jNullish node.is_constant node.constant) then node.value
  else
    match currentFrame with
    | some cf =>
      if cf = "" then node.value
      else
        match data with
        | some d =>
          match lookupFrame d.frames cf with
          | some fr =>
            match lookupEntry fr node.label with
            | some vs => vs.head?
            | none => node.value
          | none => node.value
        | none => node.value
    | none => node.value

/-! ### Raw-document mutation helpers (shared by chgDetailsProvider.ts and
chgSimulateProvider.ts) -/

/-- `getNodes(raw)`: the mutable nodes array from either shape, ensured to
exist.  Returns the (possibly repaired) document together with the array. -/
def getNodesEnsured (raw : Json) : Json × List Json :=
  if jTruthy (jGet raw "hypergraph") then
    match jGet raw "hypergraph" with
    | some hg =>
      match jGet hg "nodes" with
      | some (.arr xs) => (raw, xs)
      | _ => (jSet raw "hypergraph" (jSet hg "nodes" (.arr [])), [])
    | none => (raw, [])
  else
    match jGet raw "nodes" with
    | some (.arr xs) => (raw, xs)
    | _ => (jSet raw "nodes" (.arr []), [])

/-- `getEdges(raw)`: same for the edges array. -/
def getEdgesEnsured (raw : Json) : Json × List Json :=
  if jTruthy (jGet raw "hypergraph") then
    match jGet raw "hypergraph" with
    | some hg =>
      match jGet hg "edges" with
      | some (.arr xs) => (raw, xs)
      | _ => (jSet raw "hypergraph" (jSet hg "edges" (.arr [])), [])
    | none => (raw, [])
  else
    match jGet raw "edges" with
    | some (.arr xs) => (raw, xs)
    | _ => (jSet raw "edges" (.arr []), [])

/-- Write a replacement nodes array back into whichever shape the document
uses (the TS code mutates through the alias returned by `getNodes`). -/
def setNodesList (raw : Json) (ns : List Json) : Json :=
  if jTruthy (jGet raw "hypergraph") then
    match jGet raw "hypergraph" with
    | some hg => jSet raw "hypergraph" (jSet hg "nodes" (.arr ns))
    | none => raw
  else jSet raw "nodes" (.arr ns)

/-- Same for the edges array. -/
def setEdgesList (raw : Json) (es : List Json) : Json :=
  if jTruthy (jGet raw "hypergraph") then
    match jGet raw "hypergraph" with
    | some hg => jSet raw "hypergraph" (jSet hg "edges" (.arr es))
    | none => raw
  else jSet raw "edges" (.arr es)

/-- `nodes.find((n) => n.label === label)`, as an index.  Reading `.label`
on a `null` array element throws a TypeError, which aborts the whole
update; `.error ()` models that throw.  A `null` element after the first
match is never reached. -/
def findNodeIdx : List Json → String → Except Unit (Option Nat)
  | [], _ => .ok none
  | n :: rest, label =>
    match n with
    | .null => .error ()
    | _ =>
      if jStrEq (jGet n "label") label then .ok (some 0)
      else (findNodeIdx rest label).map (fun o => o.map (· + 1))

/-- In-place update of one array element. -/
def modifyAt : List Json → Nat → (Json → Json) → List Json
  | [], _, _ => []
  | x :: xs, 0, f => f x :: xs
  | x :: xs, i + 1, f => x :: modifyAt xs i f

/-! ### Rename propagation (chgDetailsProvider.ts, `_updateNode`, field
`'label'`) -/

/-- Element-wise replacement `s === oldL ? newL : s` (strict equality: only
a string element equal to the old label is replaced). -/
def renameSourceElem (oldL newL : String) (s : Json) : Json :=
  match s with
  | .str x => if x = oldL then .str newL else .str x
  | other => other

/-- The update each rename-relevant field receives in the per-edge body of
the rename loop: `source_nodes` and `sources` are remapped only when they
are arrays (object-mapped source fields are not visited), and a
strict-equal string `target` is replaced. -/
def renameFieldVal (oldL newL k : String) (v : Json) : Json :=
  if k = "source_nodes" || k = "sources" then
    match v with
    | .arr xs => .arr (xs.map (renameSourceElem oldL newL))
    | other => other
  else if k = "target" then
    match v with
    | .str x => if x = oldL then .str newL else .str x
    | other => other
  else v

/-- The per-edge body of the rename loop, for a non-`null` edge element.
The TS code performs three in-place property assignments on the edge
object; since an object produced by `JSON.parse` has unique keys, that
equals this single field-wise update.  On a `null` element the loop body
throws at the `e.source_nodes` read; `renameNode` models that throw before
this map runs, so this function is never consulted at `null`. -/
def renameInEdge (oldL newL : String) (e : Json) : Json :=
  match e with
  | .obj kvs => .obj (kvs.map fun p => (p.1, renameFieldVal oldL newL p.1 p.2))
  | other => other

/-- The per-frame body: `frameData[newLabel] = frameData[oldLabel]` followed
by `delete frameData[oldLabel]`, guarded by `frameData[oldLabel] !==
undefined`. -/
def moveKey (fd : Json) (oldL newL : String) : Json :=
  match jGet fd oldL with
  | some w => jErase (jSet fd newL w) oldL
  | none => fd

/-- `Object.values(raw.frames)` mutation: every frame value gets its entry
key for the renamed node moved. -/
def renameFramesVal (oldL newL : String) (f : Json) : Json :=
  match f with
  | .obj kvs => .obj (kvs.map fun p => (p.1, moveKey p.2 oldL newL))
  | .arr xs => .arr (xs.map fun fd => moveKey fd oldL newL)
  | other => other

/-- `_updateNode(raw, nodeLabel, 'label', value)` together with the
`setSelection('NODE', newLabel)` it performs.  `none` models a TypeError
thrown inside the handler — on the `raw.hypergraph` read when the parsed
text is the literal `null`, on a `null` element of the nodes array reached
by the find, or on a `null` element of the edges array (`e.source_nodes`
read) — in which case the exception escapes `_applyUpdate` before
`edit.replace`, so neither the document nor the selection changes.  If the
node is not found the document is only changed by the `getNodes` array
repair and no selection update happens (the caller still rewrites the
document). -/
def renameNode (raw : Json) (oldL newL : String) :
    Option (Json × Option (String × String)) :=
  if jsonIsNull raw then none
  else
    let r1 := getNodesEnsured raw
    match findNodeIdx r1.2 oldL with
    | .error _ => none
    | .ok none => some (r1.1, none)
    | .ok (some i) =>
      let r2 := getEdgesEnsured r1.1
      if r2.2.any jsonIsNull then none
      else
        let raw3 := setEdgesList r2.1 (r2.2.map (renameInEdge oldL newL))
        let raw4 := match jGet raw3 "frames" with
                    | some f => if jTruthy (some f) then jSet raw3 "frames" (renameFramesVal oldL newL f)
                                else raw3
                    | none => raw3
        let r5 := getNodesEnsured raw4
        let raw5 := setNodesList r5.1 (modifyAt r5.2 i (fun nd => jSet nd "label" (.str newL)))
        some (raw5, some ("NODE", newL))

/-! ### Simulation write-back and merge (chgSimulateProvider.ts) -/

/-- The decoded result object of the external simulation process, with the
fields `_simulate` inspects, typed as the TS annotations declare them. -/
structure SimResult where
  error : Option Json
  value : Option Json
  cost : Option Int
  target_node : Option String
  path_nodes : Option (List String)
  path_edges : Option (List String)
  num_nodes : Option Int
  num_edges : Option Int

/-- The frame write of `_writeSimulationResult` for a non-constant node with
a non-empty frame key: ensure `raw.frames` (truthiness-guarded), ensure
`raw.frames[frameKey]`, then overwrite the node's entry with the one-element
sequence `[value]` (`JSON.stringify([undefined])` is `[null]`). -/
def writeFrameValue (raw1 : Json) (label frameKey : String) (v : Json) : Json :=
  let raw2 := if jTruthy (jGet raw1 "frames") then raw1
              else jSet raw1 "frames" (.obj [])
  let fObj := (jGet raw2 "frames").getD .null
  let fObj2 := if jTruthy (jGet fObj frameKey) then fObj
               else jSet fObj frameKey (.obj [])
  let entry := (jGet fObj2 frameKey).getD .null
  jSet raw2 "frames" (jSet fObj2 frameKey (jSet entry label (.arr [v])))

/-- `_writeSimulationResult` on a document whose text parsed.  `some doc`
is a normal return with `doc` the resulting document text: if the target
node is missing the document is left untouched (the function returns before
building the edit); a truthy constant flag or an empty frame key writes
`node.value`; otherwise the active frame entry is replaced.  `none` models
a TypeError — on the `raw.hypergraph` read when the parsed text is the
literal `null`, or on a `null` element of the nodes array reached by the
find — thrown before the edit, so the document stays unchanged and the
awaited call rejects. -/
def writeSimulationResult (raw : Json) (label : String) (value : Option Json)
    (frameKey : String) : Option Json :=
  if jsonIsNull raw then none
  else
    let r1 := getNodesEnsured raw
    match findNodeIdx r1.2 label with
    | .error _ => none
    | .ok none => some raw
    | .ok (some i) =>
      let node := r1.2.getD i .null
      let isConst := jTruthy (jNullish (jGet node "is_constant") (jGet node "constant"))
      if isConst then
        some (setNodesList r1.1 (modifyAt r1.2 i (fun nd => jSetOpt nd "value" value)))
      else if frameKey = "" then
        some (setNodesList r1.1 (modifyAt r1.2 i (fun nd => jSetOpt nd "value" value)))
      else
        some (writeFrameValue r1.1 label frameKey (value.getD .null))

/-- The path object `_simulate` builds from a result carrying `target_node`
and `path_nodes`. -/
def mkSimPath (r : SimResult) (t : String) (ns : List String) : SimPathT :=
  { targetNode := t
    nodes := ns
    edges := r.path_edges.getD []
    cost := r.cost.getD 0
    numEdges := r.num_edges.getD 0
    numNodes := r.num_nodes.getD 0 }

/-- The path update `_simulate` performs after an awaited write-back
resolves: replaced only when the result carries both `target_node` and
`path_nodes` (`!== undefined` checks). -/
def pathUpd (oldPath : Option SimPathT) (r : SimResult) : Option SimPathT :=
  match r.target_node, r.path_nodes with
  | some t, some ns => some (mkSimPath r t ns)
  | _, _ => oldPath

/-- The post-invocation tail of `_simulate`, as a pure transformation of the
document state (`none` = text that `JSON.parse` rejects) and of the active
simulation path.  On a truthy `error` nothing changes.  Otherwise the
write-back runs: a parse failure of the document text is caught inside
`_writeSimulationResult` (normal early return), so the path update still
runs; a TypeError in the write-back rejects the awaited promise, so
`setSimPath` is never reached and both the document and the path stay
unchanged. -/
def simulateMerge (docJson : Option Json) (oldPath : Option SimPathT)
    (label frameKey : String) (r : SimResult) :
    Option Json × Option SimPathT :=
  if jTruthy r.error then (docJson, oldPath)
  else
    match docJson with
    | none => (none, pathUpd oldPath r)
    | some raw =>
      match writeSimulationResult raw label r.value frameKey with
      | some raw' => (some raw', pathUpd oldPath r)
      | none => (some raw, oldPath)

/-! ### Webview elements and the simulation-path overlay
(chgEditorProvider.ts) -/

/-- A Cytoscape element: a rendered node (CHG node or hyperedge, with its
`type` data field) or a connecting link with source/target element ids. -/
inductive CyElement where
  | node (id label ty : String)
  | link (id source target : String)
  deriving DecidableEq

def CyElement.elemId : CyElement → String
  | .node i _ _ => i
  | .link i _ _ => i

/-- `buildElements(data)`: one `n:`-id node per CHG node, and per edge one
`e:`-id node, `se:`-id links from every source whose label resolves, and a
`te:`-id link to a truthy, resolving target. -/
def buildElements (d : ChgData) : List CyElement :=
  let nodeSet := d.nodes.map (fun n => n.label)
  (d.nodes.map fun n => CyElement.node ("n:" ++ n.label) n.label "chg-node")
    ++ (d.edges.flatMap fun e =>
        CyElement.node ("e:" ++ e.label) e.label "chg-edge"
          :: ((e.sources.filterMap fun s =>
                if nodeSet.contains s.label then
                  some (CyElement.link ("se:" ++ e.label ++ ":" ++ s.label)
                    ("n:" ++ s.label) ("e:" ++ e.label))
                else none)
            ++ (if e.target ≠ "" && nodeSet.contains e.target then
                  [CyElement.link ("te:" ++ e.label) ("e:" ++ e.label)
                    ("n:" ++ e.target)]
                else [])))

/-- The first pass of `applySimPath`: the element ids that
`cy.getElementById('n:' + ...)` / `('e:' + ...)` receives the `sim-path`
class for. -/
def simPass1 (p : SimPathT) (id : String) : Bool :=
  (p.nodes.map (fun l => "n:" ++ l)).contains id
    || (p.edges.map (fun l => "e:" ++ l)).contains id

/-- `cy.getElementById`: the first element carrying the id. -/
def lookupById (els : List CyElement) (i : String) : Option CyElement :=
  els.find? fun el => el.elemId = i

/-- `e.source().hasClass('sim-path')` during the second pass: the endpoint
element must exist and carry a first-pass class (endpoints of links are node
elements, whose classes the second pass never changes). -/
def endpointOnPath (els : List CyElement) (p : SimPathT) (i : String) : Bool :=
  (lookupById els i).isSome && simPass1 p i

/-- The final `sim-path` class assignment of `applySimPath`: nodes keep
their first-pass class; a link additionally gains the class when both of its
endpoints carry the first-pass class. -/
def simClass (els : List CyElement) (p : SimPathT) : CyElement → Bool
  | .node i _ _ => simPass1 p i
  | .link i s t => simPass1 p i || (endpointOnPath els p s && endpointOnPath els p t)

/-! ### Observables and concrete documents used by the theorems -/

/-- A flat document `{nodes, edges, frames}`. -/
def mkFlat (n e f : Json) : Json :=
  Json.obj [("nodes", n), ("edges", e), ("frames", f)]

/-- The structurally-equivalent nested document
`{hypergraph: {nodes, edges}, frames}`. -/
def mkNested (n e f : Json) : Json :=
  Json.obj [("hypergraph", Json.obj [("nodes", n), ("edges", e)]), ("frames", f)]

/-- A canonically shaped raw document built from its three parts. -/
def docOf (ns es : List Json) (fs : List (String × Json)) : Json :=
  Json.obj [("nodes", Json.arr ns), ("edges", Json.arr es), ("frames", Json.obj fs)]

/-- The string labels of the raw node entries the normalizer keeps, in
order. -/
def rawNodeLabels (xs : List Json) : List String :=
  xs.filterMap fun n =>
    match jGet n "label" with
    | some (.str l) => some l
    | _ => none

/-- Whether a raw edge references the label `l`: as its string `target`, or
among its `source_nodes` / `sources` stored as an array of labels or as an
object mapping handle to label. -/
def sourceFieldRefs (o : Option Json) (l : String) : Bool :=
  match o with
  | some (.arr xs) => xs.any fun s => jStrEq (some s) l
  | some (.obj kvs) => kvs.any fun p => jStrEq (some p.2) l
  | _ => false

def edgeRefs (e : Json) (l : String) : Bool :=
  jStrEq (jGet e "target") l
    || sourceFieldRefs (jGet e "source_nodes") l
    || sourceFieldRefs (jGet e "sources") l

/-- Whether any edge of the document references the label. -/
def anyEdgeRefs (raw : Json) (l : String) : Bool :=
  match jGet raw "edges" with
  | some (.arr es) => es.any fun e => edgeRefs e l
  | _ => false

/-- A source field is in (or absent from) the plain-array form; the rename
loop only rewrites this form.  `edgeArraySources` additionally excludes the
`null` edge element, on which the loop body throws instead of running. -/
def sourceFieldArrayForm (o : Option Json) : Bool :=
  match o with
  | some (.obj _) => false
  | _ => true

def edgeArraySources (e : Json) : Bool :=
  !(jsonIsNull e)
    && sourceFieldArrayForm (jGet e "source_nodes")
    && sourceFieldArrayForm (jGet e "sources")

/-- The value stored at `raw.frames[fk][l]`. -/
def frameEntry (raw : Json) (fk l : String) : Option Json :=
  (jGet raw "frames").bind fun f => (jGet f fk).bind fun e => jGet e l

/-- The slot `raw.frames[fk]` is absent, falsy, or an object — the shapes on
which the ensure-then-write of `_writeSimulationResult` lands in an object
(a truthy non-object slot would swallow the write). -/
def frameSlotOk (fs : List (String × Json)) (fk : String) : Bool :=
  match lookupField fs fk with
  | some (.obj _) => true
  | some x => !jTruthy (some x)
  | none => true

/-- Document with one node `"a"` and one edge whose sources use the
object-mapped (handle → label) form. -/
def rdocObjSources : Json := Json.obj [
  ("nodes", Json.arr [Json.obj [("label", Json.str "a")]]),
  ("edges", Json.arr [
    Json.obj [("label", Json.str "e1"),
      ("source_nodes", Json.obj [("h", Json.str "a")]),
      ("target", Json.str "a")]]),
  ("frames", Json.obj [("f0", Json.obj [("a", Json.arr [Json.num 3])])])]

/-- The end-to-end document of the spec's testable-properties section. -/
def doc8 : Json := Json.obj [
  ("nodes", Json.arr [
    Json.obj [("label", Json.str "a"), ("is_constant", Json.bool true),
      ("value", Json.num 2)],
    Json.obj [("label", Json.str "b")]]),
  ("edges", Json.arr [
    Json.obj [("label", Json.str "e1"),
      ("source_nodes", Json.arr [Json.str "a"]),
      ("target", Json.str "b"), ("weight", Json.num 1)]]),
  ("frames", Json.obj [("f0", Json.obj [])])]

/-- The three parts of `doc8`, exposed for the canonically shaped document
constructor. -/
def ns8 : List Json := [
  Json.obj [("label", Json.str "a"), ("is_constant", Json.bool true),
    ("value", Json.num 2)],
  Json.obj [("label", Json.str "b")]]

def es8 : List Json := [
  Json.obj [("label", Json.str "e1"),
    ("source_nodes", Json.arr [Json.str "a"]),
    ("target", Json.str "b"), ("weight", Json.num 1)]]

def fs8 : List (String × Json) := [("f0", Json.obj [])]

/-- A fully successful simulation result for node `"b"` over `doc8`. -/
def okRes : SimResult :=
  ⟨none, some (Json.num 4), some 1, some "b", some ["a", "b"], some ["e1"],
    some 2, some 1⟩

/-- A document containing no node at all. -/
def emptyNodesDoc : Json :=
  Json.obj [("nodes", Json.arr []), ("frames", Json.obj [])]

/-- An error-free result carrying a value but no `target_node`/`path_nodes`. -/
def noTargetRes : SimResult :=
  ⟨none, some (Json.num 4), none, none, none, none, none, none⟩

/-- Raw nodes with a duplicated label. -/
def dupLabelDoc : Json := Json.obj [
  ("nodes", Json.arr [
    Json.obj [("label", Json.str "a")],
    Json.obj [("label", Json.str "a"), ("value", Json.num 1)]])]

/-- A snapshot whose frame names contain the empty string. -/
def emptyNameData : ChgData := ⟨[], [], [], ["f0", ""]⟩

/-- Concrete nodes and snapshots for the effective-value scenarios. -/
def constNode5 : ChgNode :=
  ⟨"c", some (Json.num 5), some (Json.bool true), none, none, some (Json.bool true)⟩

def legacyNode7 : ChgNode := ⟨"b", some (Json.num 7), none, none, none, none⟩

def dataWithB9 : ChgData := ⟨[], [], [("f0", [("b", [Json.num 9])])], ["f0"]⟩

def dataEmptyF0 : ChgData := ⟨[], [], [("f0", [])], ["f0"]⟩

/-- A plain node carrying only a label. -/
def bareNode (l : String) : ChgNode := ⟨l, none, none, none, none, none⟩

/-- Snapshot with the single node `"a"`. -/
def dataNodeA : ChgData := ⟨[bareNode "a"], [], [], []⟩

/-- Simulation paths targeting `"x"` and `"a"`. -/
def pathToX : SimPathT := ⟨"x", ["x"], [], 0, 0, 0⟩

def pathToA : SimPathT := ⟨"a", ["a"], [], 0, 0, 0⟩

/-- Raw node with both constant fields present and disagreeing. -/
def bothFlagsNode : Json := Json.obj [
  ("label", Json.str "x"), ("is_constant", Json.bool false),
  ("constant", Json.bool true)]

/-- Its canonical image. -/
def bothFlagsCanon : ChgNode :=
  ⟨"x", none, some (Json.bool false), none, none, some (Json.bool false)⟩

/-! ### Helper lemmas -/

theorem lookupField_insert_self (kvs : List (String × Json)) (k : String) (v : Json) :
    lookupField (insertField kvs k v) k = some v := by
  induction kvs with
  | nil => simp [insertField, lookupField]
  | cons hd tl ih =>
    obtain ⟨k', w⟩ := hd
    by_cases h : k' = k
    · simp [insertField, h, lookupField]
    · simp [insertField, h, lookupField, ih]

theorem lookupField_insert_ne (kvs : List (String × Json)) (k k' : String) (v : Json)
    (h : k' ≠ k) : lookupField (insertField kvs k v) k' = lookupField kvs k' := by
  induction kvs with
  | nil => simp [insertField, lookupField, Ne.symm h]
  | cons hd tl ih =>
    obtain ⟨k'', w⟩ := hd
    by_cases hk : k'' = k
    · subst hk
      simp [insertField, lookupField, Ne.symm h]
    · simp [insertField, hk, lookupField, ih]

theorem lookupField_erase_self (kvs : List (String × Json)) (k : String) :
    lookupField (eraseField kvs k) k = none := by
  induction kvs with
  | nil => simp [eraseField, lookupField]
  | cons hd tl ih =>
    obtain ⟨k', w⟩ := hd
    by_cases h : k' = k
    · simp [eraseField, h, ih]
    · simp [eraseField, h, lookupField, ih]

theorem lookupField_erase_ne (kvs : List (String × Json)) (k k' : String)
    (h : k' ≠ k) : lookupField (eraseField kvs k) k' = lookupField kvs k' := by
  induction kvs with
  | nil => simp [eraseField]
  | cons hd tl ih =>
    obtain ⟨k'', w⟩ := hd
    by_cases hk : k'' = k
    · subst hk
      simp [eraseField, lookupField, Ne.symm h, ih]
    · simp [eraseField, hk, lookupField, ih]

theorem jNullish_of_ne_null (v : Json) (b : Option Json) (h : v ≠ Json.null) :
    jNullish (some v) b = some v := by
  cases v with
  | null => exact absurd rfl h
  | bool _ => rfl
  | num _ => rfl
  | str _ => rfl
  | arr _ => rfl
  | obj _ => rfl

/-- Every non-`null` JSON value flows through the tolerant normalizer to a
model (the only caught exception inside the body is the property read on the
literal `null`). -/
theorem parseChgData_isSome (j : Json) (h : j ≠ Json.null) :
    (parseChgData j).isSome = true := by
  cases j with
  | null => exact absurd rfl h
  | bool _ => rfl
  | num _ => rfl
  | str _ => rfl
  | arr _ => rfl
  | obj _ => rfl

/-- The kept labels of the node-normalization loop, in order. -/
theorem parseNodeOne_label (n : Json) :
    (parseNodeOne n).map ChgNode.label =
      (match jGet n "label" with
       | some (.str l) => some l
       | _ => none) := by
  cases hv : jGet n "label" with
  | none => simp [parseNodeOne, hv]
  | some v => cases v <;> simp [parseNodeOne, hv]

theorem labels_preserved (xs : List Json) :
    (parseNodes xs).map ChgNode.label = rawNodeLabels xs := by
  unfold parseNodes rawNodeLabels
  rw [List.map_filterMap]
  exact List.filterMap_congr fun n _ => parseNodeOne_label n

/-! ### C6 — flat vs nested documents -/

/-- C6: for every flat document `{nodes, edges, frames}` and the
structurally-equivalent nested document `{hypergraph: {nodes, edges},
frames}`, parsing yields identical canonical models. -/
theorem flat_nested_equivalent (n e f : Json) :
    parseChgData (mkFlat n e f) = parseChgData (mkNested n e f) := rfl

/-! ### C4 — parser failure behavior -/

/-- C4 (amended): the parser is total (never throws past its boundary); on
invalid JSON — and on the JSON literal `null`, the one value whose own
property read throws and is caught — it returns failure and
`loadFromDocument` keeps the previous model; every other valid JSON value,
even of unexpected shape, produces a model. -/
theorem parse_never_throws_last_good (prev : Option ChgData) (j : Json)
    (h : j ≠ Json.null) :
    parseChgDataText none = none ∧
    parseChgData Json.null = none ∧
    (parseChgData j).isSome = true ∧
    loadFromDocument prev none = (prev, false) ∧
    loadFromDocument prev (some Json.null) = (prev, false) :=
  ⟨rfl, rfl, parseChgData_isSome j h, rfl, rfl⟩

theorem parse_never_throws_last_good_witness :
    (Json.num 5 ≠ Json.null) ∧
    (parseChgData (Json.num 5)).isSome = true ∧
    loadFromDocument (some ⟨[], [], [], []⟩) none = (some ⟨[], [], [], []⟩, false) :=
  ⟨fun hh => Json.noConfusion hh,
   (parse_never_throws_last_good (some ⟨[], [], [], []⟩) (Json.num 5)
     (fun hh => Json.noConfusion hh)).2.2.1,
   (parse_never_throws_last_good (some ⟨[], [], [], []⟩) (Json.num 5)
     (fun hh => Json.noConfusion hh)).2.2.2.1⟩

/-- C4 counterexample: the valid JSON text `5` does not resemble a document,
yet the parser returns an (empty) model rather than failure, and
`loadFromDocument` replaces the previously loaded model with it. -/
theorem parse_unshaped_json_cx :
    parseChgData (Json.num 5) = some ⟨[], [], [], []⟩ ∧
    (parseChgData (Json.num 5)).isSome = true ∧
    loadFromDocument (some ⟨[bareNode "old"], [], [], []⟩) (some (Json.num 5)) =
      (some ⟨[], [], [], []⟩, true) :=
  ⟨rfl, rfl, rfl⟩

/-! ### C9 — label uniqueness under normalization -/

/-- C9 (amended): the canonical node labels are exactly the string labels of
the kept raw node entries, in order; hence the canonical labels are unique
precisely when the input's are, and duplicate input labels are passed
through (not deduplicated) without failure. -/
theorem labels_preserved_not_deduped (xs : List Json) :
    (parseNodes xs).map ChgNode.label = rawNodeLabels xs ∧
    (((parseNodes xs).map ChgNode.label).Nodup ↔ (rawNodeLabels xs).Nodup) :=
  ⟨labels_preserved xs, by rw [labels_preserved xs]⟩

/-- C9 counterexample: a document with two nodes labeled `"a"` parses (no
crash) to a model whose labels `["a", "a"]` are not unique. -/
theorem dup_labels_cx :
    (parseChgData dupLabelDoc).map (fun d => d.nodes.map ChgNode.label) =
      some ["a", "a"] ∧
    (parseChgData dupLabelDoc).isSome = true ∧
    ¬ (["a", "a"] : List String).Nodup :=
  ⟨rfl, rfl, by decide⟩

/-! ### C10 — resolution of the two constant flags -/

/-- C10: when the raw node's `is_constant` is present and non-null, the
normalizer resolves the constant flag to it (ignoring the legacy `constant`
field entirely) and exposes the resolved value through both canonical
fields. -/
theorem constant_flag_resolution (n v : Json) (nc : ChgNode)
    (hv : jGet n "is_constant" = some v) (hnn : v ≠ Json.null)
    (hp : parseNodeOne n = some nc) :
    nc.is_constant = some v ∧ nc.constant = some v := by
  unfold parseNodeOne at hp
  cases hl : jGet n "label" with
  | none => rw [hl] at hp; exact Option.noConfusion hp
  | some w =>
    cases w <;> rw [hl] at hp <;> try exact Option.noConfusion hp
    case str l =>
      have hnc := (Option.some.injEq _ _).mp hp
      rw [← hnc]
      simp [hv, jNullish_of_ne_null v _ hnn]

theorem constant_flag_resolution_witness :
    jGet bothFlagsNode "is_constant" = some (Json.bool false) ∧
    (Json.bool false ≠ Json.null) ∧
    parseNodeOne bothFlagsNode = some bothFlagsCanon ∧
    bothFlagsCanon.is_constant = some (Json.bool false) ∧
    bothFlagsCanon.constant = some (Json.bool false) :=
  ⟨rfl, fun hh => Json.noConfusion hh, rfl,
   (constant_flag_resolution bothFlagsNode (Json.bool false) bothFlagsCanon rfl
     (fun hh => Json.noConfusion hh) rfl).1,
   (constant_flag_resolution bothFlagsNode (Json.bool false) bothFlagsCanon rfl
     (fun hh => Json.noConfusion hh) rfl).2⟩

/-! ### C3 — simulation-path invalidation on data change -/

/-- C3: whenever the data snapshot changes while a simulation path is
active, the path is cleared exactly when its target node is no longer among
the snapshot's nodes, and left intact when it still is. -/
theorem simPath_invalidation (data : Option ChgData) (p : SimPathT) :
    (targetPresent data p.targetNode = false →
      simPathAfterDataChange data (some p) = none) ∧
    (targetPresent data p.targetNode = true →
      simPathAfterDataChange data (some p) = some p) := by
  constructor <;> intro h <;> simp [simPathAfterDataChange, h]

theorem simPath_invalidation_witness :
    simPathAfterDataChange (some dataNodeA) (some pathToX) = none ∧
    simPathAfterDataChange (some dataNodeA) (some pathToA) = some pathToA :=
  ⟨(simPath_invalidation (some dataNodeA) pathToX).1 rfl,
   (simPath_invalidation (some dataNodeA) pathToA).2 rfl⟩

/-! ### C5 — effective value resolution -/

/-- C5: a node with a truthy constant flag displays `node.value` regardless
of frame state; a non-constant node present in the active frame displays the
first element of its stored sequence; a non-constant node absent from the
active frame falls back to its legacy `node.value`. -/
theorem effective_value_resolution (node : ChgNode) (cf : String) (d : ChgData)
    (fr : List (String × List Json)) :
    (jTruthy (jNullish node.is_constant node.constant) = true →
      ∀ (cfo : Option String) (dato : Option ChgData),
        getNodeValue node cfo dato = node.value) ∧
    (jTruthy (jNullish node.is_constant node.constant) = false → cf ≠ "" →
      lookupFrame d.frames cf = some fr →
      ∀ (v : Json) (vs : List Json),
        lookupEntry fr node.label = some (v :: vs) →
        getNodeValue node (some cf) (some d) = some v) ∧
    (jTruthy (jNullish node.is_constant node.constant) = false → cf ≠ "" →
      lookupFrame d.frames cf = some fr →
      lookupEntry fr node.label = none →
      getNodeValue node (some cf) (some d) = node.value) := by
  refine ⟨?_, ?_, ?_⟩
  · intro h cfo dato
    cases cfo <;> simp [getNodeValue, h]
  · intro h hcf hfr v vs hen
    simp [getNodeValue, h, hcf, hfr, hen]
  · intro h hcf hfr hen
    simp [getNodeValue, h, hcf, hfr, hen]

theorem effective_value_resolution_witness :
    getNodeValue constNode5 (some "f0") (some dataWithB9) = some (Json.num 5) ∧
    getNodeValue legacyNode7 (some "f0") (some dataWithB9) = some (Json.num 9) ∧
    getNodeValue legacyNode7 (some "f0") (some dataEmptyF0) = some (Json.num 7) :=
  ⟨(effective_value_resolution constNode5 "f0" dataWithB9 []).1 rfl
     (some "f0") (some dataWithB9),
   (effective_value_resolution legacyNode7 "f0" dataWithB9
     [("b", [Json.num 9])]).2.1 rfl (by decide) rfl (Json.num 9) [] rfl,
   (effective_value_resolution legacyNode7 "f0" dataEmptyF0 []).2.2 rfl
     (by decide) rfl rfl⟩

/-! ### C7 — default frame auto-selection in `setData` -/

/-- C7 (amended): a null snapshot clears the current frame; a snapshot with
no frame names leaves it unchanged; with at least one frame name, a falsy
(null or empty) or no-longer-listed current frame snaps to the first frame
name, and a non-empty current frame still listed is kept. -/
theorem setData_frame_selection (d : ChgData) (cur : Option String) :
    (setDataFrame none cur = none) ∧
    (d.frameNames = [] → setDataFrame (some d) cur = cur) ∧
    (d.frameNames ≠ [] → strFalsy cur = true →
      setDataFrame (some d) cur = d.frameNames.head?) ∧
    (∀ c : String, d.frameNames ≠ [] → cur = some c → c ∉ d.frameNames →
      setDataFrame (some d) cur = d.frameNames.head?) ∧
    (∀ c : String, cur = some c → c ≠ "" → c ∈ d.frameNames →
      setDataFrame (some d) cur = some c) := by
  refine ⟨rfl, ?_, ?_, ?_, ?_⟩
  · intro h
    simp [setDataFrame, h]
  · intro hne hf
    simp [setDataFrame, List.length_pos.mpr hne, hf]
  · intro c hne hc hmem
    subst hc
    simp [setDataFrame, List.length_pos.mpr hne, hmem]
  · intro c hc hne hmem
    subst hc
    have hpos : 0 < d.frameNames.length :=
      List.length_pos.mpr (List.ne_nil_of_mem hmem)
    simp [setDataFrame, hpos, strFalsy, hne, hmem]

theorem setData_frame_selection_witness :
    setDataFrame none (some "z") = none ∧
    setDataFrame (some (⟨[], [], [], []⟩ : ChgData)) (some "z") = some "z" ∧
    setDataFrame (some emptyNameData) none = some "f0" ∧
    setDataFrame (some emptyNameData) (some "zz") = some "f0" ∧
    setDataFrame (some emptyNameData) (some "f0") = some "f0" :=
  ⟨(setData_frame_selection emptyNameData (some "z")).1,
   (setData_frame_selection ⟨[], [], [], []⟩ (some "z")).2.1 rfl,
   (setData_frame_selection emptyNameData none).2.2.1 (by decide) rfl,
   (setData_frame_selection emptyNameData (some "zz")).2.2.2.1 "zz"
     (by decide) rfl (by decide),
   (setData_frame_selection emptyNameData (some "f0")).2.2.2.2 "f0" rfl
     (by decide) (by decide)⟩

/-- C7 counterexample: with frame names `["f0", ""]` and active frame `""`
(non-null and still listed), `setData` resets the current frame to `"f0"`
instead of leaving it unchanged, because the code tests JS truthiness rather
than null-ness. -/
theorem setData_frame_cx :
    setDataFrame (some emptyNameData) (some "") = some "f0" ∧
    "" ∈ emptyNameData.frameNames ∧
    (some "" : Option String) ≠ none ∧
    (some "f0" : Option String) ≠ some "" :=
  ⟨rfl, by decide, by decide, by decide⟩

/-! ### C8 — helper lemmas about element ids -/

theorem head_n (x : String) : ("n:" ++ x).data.head? = some 'n' := by
  rw [String.data_append]; rfl

theorem head_e (x : String) : ("e:" ++ x).data.head? = some 'e' := by
  rw [String.data_append]; rfl

theorem head_se (a b : String) :
    ("se:" ++ a ++ ":" ++ b).data.head? = some 's' := by
  rw [String.data_append, String.data_append, String.data_append]; rfl

theorem head_te (x : String) : ("te:" ++ x).data.head? = some 't' := by
  rw [String.data_append]; rfl

/-- Every link element produced by `buildElements` is a source link
(`se:`-id, from a node element to the hyperedge element, with a resolving
source label) or a target link (`te:`-id, from the hyperedge element to a
resolving target node element). -/
theorem buildElements_link_shape (d : ChgData) (i s t : String)
    (h : CyElement.link i s t ∈ buildElements d) :
    (∃ e ∈ d.edges, ∃ src ∈ e.sources,
      i = "se:" ++ e.label ++ ":" ++ src.label ∧
      s = "n:" ++ src.label ∧ t = "e:" ++ e.label ∧
      (d.nodes.map ChgNode.label).contains src.label = true) ∨
    (∃ e ∈ d.edges,
      i = "te:" ++ e.label ∧ s = "e:" ++ e.label ∧ t = "n:" ++ e.target ∧
      (d.nodes.map ChgNode.label).contains e.target = true) := by
  simp only [buildElements] at h
  rcases List.mem_append.mp h with h1 | h2
  · obtain ⟨n, _, hn⟩ := List.mem_map.mp h1
    exact absurd hn (fun hh => CyElement.noConfusion hh)
  · obtain ⟨e, he, hmem⟩ := List.mem_flatMap.mp h2
    rcases List.mem_cons.mp hmem with hh | hh
    · exact absurd hh (fun hh => CyElement.noConfusion hh)
    · rcases List.mem_append.mp hh with hs | ht
      · obtain ⟨src, hsrc, hmk⟩ := List.mem_filterMap.mp hs
        by_cases hc : (d.nodes.map (fun n => n.label)).contains src.label
        · rw [if_pos hc] at hmk
          have h3 := (Option.some.injEq _ _).mp hmk
          obtain ⟨hi, hs', ht'⟩ := CyElement.link.inj h3
          exact Or.inl ⟨e, he, src, hsrc, hi.symm, hs'.symm, ht'.symm, hc⟩
        · rw [if_neg hc] at hmk
          exact Option.noConfusion hmk
      · by_cases hc :
          (decide (e.target ≠ "") && (d.nodes.map (fun n => n.label)).contains e.target) = true
        · rw [if_pos hc] at ht
          have h3 := List.mem_singleton.mp ht
          obtain ⟨hi, hs', ht'⟩ := CyElement.link.inj h3
          exact Or.inr ⟨e, he, hi, hs', ht',
            (Bool.and_eq_true _ _ |>.mp hc).2⟩
        · rw [if_neg hc] at ht
          exact absurd ht (List.not_mem_nil _)

/-- The first pass of `applySimPath` targets only `n:`- and `e:`-prefixed
ids, so an id starting with `s` or `t` never receives a first-pass class. -/
theorem simPass1_false_of_head (p : SimPathT) (i : String)
    (h : i.data.head? = some 's' ∨ i.data.head? = some 't') :
    simPass1 p i = false := by
  have h1 : i ∉ p.nodes.map (fun l => "n:" ++ l) := by
    intro hm
    obtain ⟨a, _, ha⟩ := List.mem_map.mp hm
    rw [← ha] at h
    rcases h with h | h <;> rw [head_n] at h <;> simp at h
  have h2 : i ∉ p.edges.map (fun l => "e:" ++ l) := by
    intro hm
    obtain ⟨a, _, ha⟩ := List.mem_map.mp hm
    rw [← ha] at h
    rcases h with h | h <;> rw [head_e] at h <;> simp at h
  simp [simPass1, h1, h2]

/-- A resolving CHG-node label yields a findable `n:`-id element. -/
theorem buildElements_node_lookup (d : ChgData) (l : String)
    (h : (d.nodes.map ChgNode.label).contains l = true) :
    (lookupById (buildElements d) ("n:" ++ l)).isSome = true := by
  rw [lookupById, List.find?_isSome]
  have hx : ∃ n ∈ d.nodes, n.label = l := by simpa using h
  obtain ⟨n, hn, rfl⟩ := hx
  refine ⟨CyElement.node ("n:" ++ n.label) n.label "chg-node", ?_, by simp [CyElement.elemId]⟩
  simp only [buildElements]
  exact List.mem_append.mpr (Or.inl (List.mem_map.mpr ⟨n, hn, rfl⟩))

/-- Every edge of the model yields a findable `e:`-id hyperedge element. -/
theorem buildElements_edgeNode_lookup (d : ChgData) (e : ChgEdge)
    (he : e ∈ d.edges) :
    (lookupById (buildElements d) ("e:" ++ e.label)).isSome = true := by
  rw [lookupById, List.find?_isSome]
  refine ⟨CyElement.node ("e:" ++ e.label) e.label "chg-edge", ?_, by simp [CyElement.elemId]⟩
  simp only [buildElements]
  exact List.mem_append.mpr (Or.inr (List.mem_flatMap.mpr ⟨e, he, List.mem_cons_self _ _⟩))

/-- A looked-up endpoint with an `n:`/`e:` id is a node element, whose final
class is its first-pass class. -/
theorem lookup_node_simClass (d : ChgData) (p : SimPathT) (i : String)
    (el : CyElement) (h : lookupById (buildElements d) i = some el)
    (hh : i.data.head? = some 'n' ∨ i.data.head? = some 'e') :
    simClass (buildElements d) p el = simPass1 p i := by
  have h' := h
  rw [lookupById] at h'
  have hid : el.elemId = i := by
    have h2 := List.find?_some h'
    simpa using h2
  have hmem : el ∈ buildElements d := List.mem_of_find?_eq_some h'
  cases el with
  | node id l ty =>
    have : id = i := hid
    rw [← this]
    rfl
  | link id s t =>
    exfalso
    have hid' : id = i := hid
    rw [← hid'] at hh
    rcases buildElements_link_shape d id s t hmem with
      ⟨e, _, src, _, hi, _⟩ | ⟨e, _, hi, _⟩
    · rw [hi, head_se] at hh
      rcases hh with hh | hh <;> simp at hh
    · rw [hi, head_te] at hh
      rcases hh with hh | hh <;> simp at hh

/-- C8: in the simulation-path overlay, a rendered connecting link carries
the path-highlight class if and only if both of its endpoint elements carry
it; a link with only one highlighted endpoint is never marked as on the
path. -/
theorem link_on_path_iff_endpoints (d : ChgData) (p : SimPathT) (i s t : String)
    (h : CyElement.link i s t ∈ buildElements d) :
    (simClass (buildElements d) p (CyElement.link i s t) = true ↔
      ((lookupById (buildElements d) s).any
          (fun es => simClass (buildElements d) p es) = true ∧
        (lookupById (buildElements d) t).any
          (fun et => simClass (buildElements d) p et) = true)) := by
  rcases buildElements_link_shape d i s t h with
    ⟨e, he, src, _, hi, hs, ht, hc⟩ | ⟨e, he, hi, hs, ht, hc⟩
  · subst hi hs ht
    have hp1 : simPass1 p ("se:" ++ e.label ++ ":" ++ src.label) = false :=
      simPass1_false_of_head p _ (Or.inl (head_se _ _))
    obtain ⟨es, hes⟩ := Option.isSome_iff_exists.mp
      (buildElements_node_lookup d src.label hc)
    obtain ⟨et, het⟩ := Option.isSome_iff_exists.mp
      (buildElements_edgeNode_lookup d e he)
    have hesC := lookup_node_simClass d p _ es hes (Or.inl (head_n _))
    have hetC := lookup_node_simClass d p _ et het (Or.inr (head_e _))
    have hL : simClass (buildElements d) p
        (CyElement.link ("se:" ++ e.label ++ ":" ++ src.label)
          ("n:" ++ src.label) ("e:" ++ e.label))
        = (simPass1 p ("se:" ++ e.label ++ ":" ++ src.label)
            || (endpointOnPath (buildElements d) p ("n:" ++ src.label)
                && endpointOnPath (buildElements d) p ("e:" ++ e.label))) := rfl
    rw [hL, hp1]
    simp [endpointOnPath, hes, het, hesC, hetC, Option.any]
  · subst hi hs ht
    have hp1 : simPass1 p ("te:" ++ e.label) = false :=
      simPass1_false_of_head p _ (Or.inr (head_te _))
    obtain ⟨es, hes⟩ := Option.isSome_iff_exists.mp
      (buildElements_edgeNode_lookup d e he)
    obtain ⟨et, het⟩ := Option.isSome_iff_exists.mp
      (buildElements_node_lookup d e.target hc)
    have hesC := lookup_node_simClass d p _ es hes (Or.inr (head_e _))
    have hetC := lookup_node_simClass d p _ et het (Or.inl (head_n _))
    have hL : simClass (buildElements d) p
        (CyElement.link ("te:" ++ e.label) ("e:" ++ e.label) ("n:" ++ e.target))
        = (simPass1 p ("te:" ++ e.label)
            || (endpointOnPath (buildElements d) p ("e:" ++ e.label)
                && endpointOnPath (buildElements d) p ("n:" ++ e.target))) := rfl
    rw [hL, hp1]
    simp [endpointOnPath, hes, het, hesC, hetC, Option.any]

/-- A two-node, one-edge model, a full path over it, and a path marking only
one endpoint. -/
def dW : ChgData :=
  ⟨[bareNode "a", bareNode "b"],
    [⟨"e1", none, none, [⟨"0", "a"⟩], "b", none⟩], [], []⟩

def pFull : SimPathT := ⟨"b", ["a", "b"], ["e1"], 1, 1, 2⟩

def pHalf : SimPathT := ⟨"b", ["a"], [], 0, 0, 0⟩

theorem link_on_path_iff_endpoints_witness :
    (CyElement.link "se:e1:a" "n:a" "e:e1" ∈ buildElements dW) ∧
    simClass (buildElements dW) pFull (CyElement.link "se:e1:a" "n:a" "e:e1") = true ∧
    simClass (buildElements dW) pHalf (CyElement.link "se:e1:a" "n:a" "e:e1") = false :=
  ⟨by decide,
   (link_on_path_iff_endpoints dW pFull "se:e1:a" "n:a" "e:e1" (by decide)).mpr
     ⟨by decide, by decide⟩,
   by decide⟩

/-! ### C2 — helper lemmas for the simulation write-back -/

theorem jGet_jSet_self (kvs : List (String × Json)) (k : String) (v : Json) :
    jGet (jSet (Json.obj kvs) k v) k = some v := by
  simp [jSet, jGet, lookupField_insert_self]

theorem jGet_jSet_ne (e : Json) (k k' : String) (v : Json) (h : k' ≠ k) :
    jGet (jSet e k v) k' = jGet e k' := by
  cases e <;> simp [jSet, jGet, lookupField_insert_ne _ _ _ _ h]

theorem jGet_jSetOpt_self (kvs : List (String × Json)) (k : String)
    (v : Option Json) : jGet (jSetOpt (Json.obj kvs) k v) k = v := by
  cases v with
  | some w => simp [jSetOpt, jGet_jSet_self]
  | none => simp [jSetOpt, jErase, jGet, lookupField_erase_self]

theorem jStrEq_eq (o : Option Json) (s : String) (h : jStrEq o s = true) :
    o = some (Json.str s) := by
  cases o with
  | none => exact absurd h (by simp [jStrEq])
  | some v => cases v <;> simp_all [jStrEq]

/-- Recursion step of a successful find past a non-matching, non-`null`
element. -/
theorem findNodeIdx_cons_rec (n : Json) (rest : List Json) (label : String)
    (i : Nat) (hnn : jsonIsNull n = false)
    (hs : jStrEq (jGet n "label") label = false)
    (h : findNodeIdx (n :: rest) label = Except.ok (some i)) :
    ∃ j, findNodeIdx rest label = Except.ok (some j) ∧ i = j + 1 := by
  have hred : findNodeIdx (n :: rest) label
      = (findNodeIdx rest label).map (fun o => o.map (· + 1)) := by
    cases n with
    | null => simp [jsonIsNull] at hnn
    | bool b => simp [findNodeIdx, hs]
    | num m => simp [findNodeIdx, hs]
    | str s => simp [findNodeIdx, hs]
    | arr a => simp [findNodeIdx, hs]
    | obj kvs => simp [findNodeIdx, hs]
  rw [hred] at h
  cases hrec : findNodeIdx rest label with
  | error u => rw [hrec] at h; simp [Except.map] at h
  | ok o =>
    rw [hrec] at h
    simp only [Except.map] at h
    cases o with
    | none => simp at h
    | some j =>
      have hij : j + 1 = i := by simpa using h
      exact ⟨j, rfl, hij.symm⟩

/-- A found node is an object (the find succeeded, so no `null` element
preceded it and the matching element carries a string `label`). -/
theorem findNodeIdx_obj (ns : List Json) (label : String) (i : Nat)
    (h : findNodeIdx ns label = Except.ok (some i)) :
    ∃ kvs, ns.getD i Json.null = Json.obj kvs := by
  induction ns generalizing i with
  | nil => simp [findNodeIdx] at h
  | cons n rest ih =>
    by_cases hnull : jsonIsNull n = true
    · have hn : n = Json.null := by cases n <;> simp_all [jsonIsNull]
      rw [hn] at h
      exact Except.noConfusion h
    · by_cases hs : jStrEq (jGet n "label") label = true
      · have hred : findNodeIdx (n :: rest) label = Except.ok (some 0) := by
          cases n with
          | null => simp [jsonIsNull] at hnull
          | bool b => simp [findNodeIdx, hs]
          | num m => simp [findNodeIdx, hs]
          | str s => simp [findNodeIdx, hs]
          | arr a => simp [findNodeIdx, hs]
          | obj kvs => simp [findNodeIdx, hs]
        rw [hred] at h
        have hi : (0 : Nat) = i := by simpa using h
        subst hi
        have hl := jStrEq_eq _ _ hs
        cases n with
        | obj kvs => exact ⟨kvs, rfl⟩
        | null => simp [jsonIsNull] at hnull
        | bool b => exact absurd hl (by simp [jGet])
        | num m => exact absurd hl (by simp [jGet])
        | str s' => exact absurd hl (by simp [jGet])
        | arr xs => exact absurd hl (by simp [jGet])
      · have hs' : jStrEq (jGet n "label") label = false := by simpa using hs
        have hnn : jsonIsNull n = false := by simpa using hnull
        obtain ⟨j, hrec, hij⟩ := findNodeIdx_cons_rec n rest label i hnn hs' h
        subst hij
        exact ih j hrec

/-- If `jTruthy (some x) = false` then `x` is not an object, so any property
read on it is `undefined`. -/
theorem jGet_of_falsy (x : Json) (k : String) (h : jTruthy (some x) = false) :
    jGet x k = none := by
  cases x <;> simp_all [jGet, jTruthy]

/-- The shape of the frame write on a canonically shaped document: nodes and
edges are untouched, and `frames` gets the ensured-and-overwritten slot. -/
theorem writeFrameValue_eq (ns es : List Json) (fs : List (String × Json))
    (label fk : String) (v : Json) :
    writeFrameValue (docOf ns es fs) label fk v =
      Json.obj [("nodes", Json.arr ns), ("edges", Json.arr es),
        ("frames",
          jSet (if jTruthy (lookupField fs fk) then Json.obj fs
                else Json.obj (insertField fs fk (Json.obj []))) fk
            (jSet ((jGet (if jTruthy (lookupField fs fk) then Json.obj fs
                          else Json.obj (insertField fs fk (Json.obj []))) fk).getD
                Json.null) label (Json.arr [v])))] := rfl

theorem jGet_doc3_frames (a b X : Json) :
    jGet (Json.obj [("nodes", a), ("edges", b), ("frames", X)]) "frames" = some X := rfl

theorem writeFrameValue_eq_true (ns es : List Json) (fs : List (String × Json))
    (label fk : String) (v : Json) (hyp : jTruthy (lookupField fs fk) = true) :
    writeFrameValue (docOf ns es fs) label fk v =
      Json.obj [("nodes", Json.arr ns), ("edges", Json.arr es),
        ("frames", jSet (Json.obj fs) fk
          (jSet ((lookupField fs fk).getD Json.null) label (Json.arr [v])))] := by
  rw [writeFrameValue_eq, hyp]
  simp [jGet]

theorem writeFrameValue_eq_false (ns es : List Json) (fs : List (String × Json))
    (label fk : String) (v : Json) (hyp : jTruthy (lookupField fs fk) = false) :
    writeFrameValue (docOf ns es fs) label fk v =
      Json.obj [("nodes", Json.arr ns), ("edges", Json.arr es),
        ("frames", Json.obj (insertField (insertField fs fk (Json.obj [])) fk
          (Json.obj [(label, Json.arr [v])])))] := by
  rw [writeFrameValue_eq, hyp]
  simp [jGet, lookupField_insert_self, jSet, insertField]

theorem writeFrameValue_obs (ns es : List Json) (fs : List (String × Json))
    (label fk : String) (v : Json) (hslot : frameSlotOk fs fk = true) :
    frameEntry (writeFrameValue (docOf ns es fs) label fk v) fk label
      = some (Json.arr [v]) ∧
    jGet (writeFrameValue (docOf ns es fs) label fk v) "nodes"
      = some (Json.arr ns) ∧
    jGet (writeFrameValue (docOf ns es fs) label fk v) "edges"
      = some (Json.arr es) ∧
    (∀ l', l' ≠ label →
      frameEntry (writeFrameValue (docOf ns es fs) label fk v) fk l'
        = frameEntry (docOf ns es fs) fk l') ∧
    (∀ fk', fk' ≠ fk →
      (jGet (writeFrameValue (docOf ns es fs) label fk v) "frames").bind
          (fun f => jGet f fk')
        = lookupField fs fk') := by
  cases htr : jTruthy (lookupField fs fk) with
  | true =>
    have hobj : ∃ kvs, lookupField fs fk = some (Json.obj kvs) := by
      unfold frameSlotOk at hslot
      cases hlf : lookupField fs fk with
      | none => rw [hlf] at htr; exact absurd htr (by simp [jTruthy])
      | some x =>
        cases x <;> rw [hlf] at hslot htr <;> simp_all
    obtain ⟨kvs, hkvs⟩ := hobj
    rw [writeFrameValue_eq_true ns es fs label fk v htr, hkvs]
    simp only [Option.getD_some]
    refine ⟨?_, rfl, rfl, ?_, ?_⟩
    · simp only [frameEntry, jGet_doc3_frames, Option.some_bind]
      rw [jGet_jSet_self fs fk]
      simp only [Option.some_bind]
      rw [jGet_jSet_self kvs label]
    · intro l' hl'
      simp only [frameEntry, jGet_doc3_frames, Option.some_bind]
      rw [jGet_jSet_self fs fk]
      simp only [Option.some_bind]
      rw [jGet_jSet_ne _ _ _ _ hl']
      simp [docOf, jGet, lookupField, hkvs]
    · intro fk' hfk'
      simp only [jGet_doc3_frames, Option.some_bind]
      rw [jGet_jSet_ne _ _ _ _ hfk']
      rfl
  | false =>
    rw [writeFrameValue_eq_false ns es fs label fk v htr]
    refine ⟨?_, rfl, rfl, ?_, ?_⟩
    · simp [frameEntry, jGet_doc3_frames, jGet, lookupField_insert_self, lookupField]
    · intro l' hl'
      simp only [frameEntry, jGet_doc3_frames, Option.some_bind]
      rw [show jGet (Json.obj (insertField (insertField fs fk (Json.obj [])) fk
            (Json.obj [(label, Json.arr [v])]))) fk
          = some (Json.obj [(label, Json.arr [v])]) from by
        simp [jGet, lookupField_insert_self]]
      simp only [Option.some_bind]
      rw [show jGet (Json.obj [(label, Json.arr [v])]) l' = none from by
        simp [jGet, lookupField, Ne.symm hl']]
      rw [show jGet (docOf ns es fs) "frames" = some (Json.obj fs) from rfl]
      simp only [Option.some_bind]
      rw [show jGet (Json.obj fs) fk = lookupField fs fk from rfl]
      cases hlf : lookupField fs fk with
      | none => simp
      | some x =>
        rw [hlf] at htr
        simp [jGet_of_falsy x l' htr]
    · intro fk' hfk'
      simp only [jGet_doc3_frames, Option.some_bind]
      rw [show jGet (Json.obj (insertField (insertField fs fk (Json.obj [])) fk
            (Json.obj [(label, Json.arr [v])]))) fk'
          = lookupField fs fk' from by
        simp [jGet, lookupField_insert_ne _ _ _ _ hfk']]

/-- C2 (amended): on an error-free result the write-back and the
path update run from the same success branch, but each is guarded on its
own: the path is replaced exactly when the result carries `target_node` and
`path_nodes`, and the value lands in the document only when the target node
is found there.  When the find succeeds (which also rules out a `null`
element before the target, on which the write-back would throw and leave
everything including the path unchanged), the write-back returns normally:
a found non-constant node written under a non-empty frame key puts the
one-element sequence `[value]` into the active frame's entry (replacing any
existing entry, leaving other entries, frames, nodes and edges untouched);
a truthy constant flag writes `node.value` directly and leaves the frames
untouched. -/
theorem simulate_merge_guarded
    (ns es : List Json) (fs : List (String × Json)) (oldP : Option SimPathT)
    (label fk : String) (r : SimResult) (i : Nat) (t : String) (pns : List String)
    (herr : jTruthy r.error = false)
    (ht : r.target_node = some t)
    (hpn : r.path_nodes = some pns)
    (hfind : findNodeIdx ns label = Except.ok (some i)) :
    (writeSimulationResult (docOf ns es fs) label r.value fk).isSome = true ∧
    (simulateMerge (some (docOf ns es fs)) oldP label fk r
        = (writeSimulationResult (docOf ns es fs) label r.value fk,
           some (mkSimPath r t pns))) ∧
    (jTruthy (jNullish (jGet (ns.getD i Json.null) "is_constant")
        (jGet (ns.getD i Json.null) "constant")) = false → fk ≠ "" →
      frameSlotOk fs fk = true →
      (writeSimulationResult (docOf ns es fs) label r.value fk
          = some (writeFrameValue (docOf ns es fs) label fk
              (r.value.getD Json.null)) ∧
        frameEntry (writeFrameValue (docOf ns es fs) label fk
            (r.value.getD Json.null)) fk label
          = some (Json.arr [r.value.getD Json.null]) ∧
        jGet (writeFrameValue (docOf ns es fs) label fk
            (r.value.getD Json.null)) "nodes"
          = some (Json.arr ns) ∧
        jGet (writeFrameValue (docOf ns es fs) label fk
            (r.value.getD Json.null)) "edges"
          = some (Json.arr es) ∧
        (∀ l', l' ≠ label →
          frameEntry (writeFrameValue (docOf ns es fs) label fk
              (r.value.getD Json.null)) fk l'
            = frameEntry (docOf ns es fs) fk l') ∧
        (∀ fk', fk' ≠ fk →
          (jGet (writeFrameValue (docOf ns es fs) label fk
              (r.value.getD Json.null)) "frames").bind
              (fun f => jGet f fk')
            = lookupField fs fk'))) ∧
    (jTruthy (jNullish (jGet (ns.getD i Json.null) "is_constant")
        (jGet (ns.getD i Json.null) "constant")) = true →
      (writeSimulationResult (docOf ns es fs) label r.value fk
          = some (Json.obj [("nodes",
              Json.arr (modifyAt ns i (fun nd => jSetOpt nd "value" r.value))),
              ("edges", Json.arr es), ("frames", Json.obj fs)]) ∧
        jGet (jSetOpt (ns.getD i Json.null) "value" r.value) "value"
          = r.value)) := by
  have hw0 : writeSimulationResult (docOf ns es fs) label r.value fk
      = (if jTruthy (jNullish (jGet (ns.getD i Json.null) "is_constant")
            (jGet (ns.getD i Json.null) "constant")) then
           some (setNodesList (docOf ns es fs)
             (modifyAt ns i (fun nd => jSetOpt nd "value" r.value)))
         else if fk = "" then
           some (setNodesList (docOf ns es fs)
             (modifyAt ns i (fun nd => jSetOpt nd "value" r.value)))
         else
           some (writeFrameValue (docOf ns es fs) label fk
             (r.value.getD Json.null))) := by
    simp only [writeSimulationResult]
    rw [show findNodeIdx (getNodesEnsured (docOf ns es fs)).2 label
      = Except.ok (some i) from hfind]
    rfl
  have hsome : (writeSimulationResult (docOf ns es fs) label r.value fk).isSome
      = true := by
    rw [hw0]
    by_cases hc : jTruthy (jNullish (jGet (ns.getD i Json.null) "is_constant")
        (jGet (ns.getD i Json.null) "constant")) = true
    · rw [if_pos hc]
      rfl
    · rw [if_neg hc]
      by_cases hk : fk = ""
      · rw [if_pos hk]
        rfl
      · rw [if_neg hk]
        rfl
  refine ⟨hsome, ?_, ?_, ?_⟩
  · obtain ⟨w, hwv⟩ := Option.isSome_iff_exists.mp hsome
    simp [simulateMerge, herr, hwv, pathUpd, ht, hpn]
  · intro hconst hfk hslot
    have hw : writeSimulationResult (docOf ns es fs) label r.value fk
        = some (writeFrameValue (docOf ns es fs) label fk
            (r.value.getD Json.null)) := by
      rw [hw0]
      rw [if_neg (by simp only [hconst]; simp), if_neg hfk]
    exact ⟨hw, writeFrameValue_obs ns es fs label fk (r.value.getD Json.null) hslot⟩
  · intro hconst
    have hw : writeSimulationResult (docOf ns es fs) label r.value fk
        = some (Json.obj [("nodes",
            Json.arr (modifyAt ns i (fun nd => jSetOpt nd "value" r.value))),
            ("edges", Json.arr es), ("frames", Json.obj fs)]) := by
      rw [hw0, if_pos hconst]
      simp [setNodesList, docOf, jGet, jTruthy, jSet, insertField, lookupField]
    refine ⟨hw, ?_⟩
    obtain ⟨kvs, hkvs⟩ := findNodeIdx_obj ns label i hfind
    rw [hkvs]
    exact jGet_jSetOpt_self kvs "value" r.value

theorem simulate_merge_guarded_witness :
    simulateMerge (some (docOf ns8 es8 fs8)) none "b" "f0" okRes
      = (writeSimulationResult (docOf ns8 es8 fs8) "b" okRes.value "f0",
         some (mkSimPath okRes "b" ["a", "b"])) ∧
    writeSimulationResult (docOf ns8 es8 fs8) "b" okRes.value "f0"
      = some (writeFrameValue (docOf ns8 es8 fs8) "b" "f0" (Json.num 4)) ∧
    frameEntry (writeFrameValue (docOf ns8 es8 fs8) "b" "f0" (Json.num 4))
        "f0" "b"
      = some (Json.arr [Json.num 4]) :=
  ⟨(simulate_merge_guarded ns8 es8 fs8 none "b" "f0" okRes 1 "b" ["a", "b"]
      rfl rfl rfl rfl).2.1,
   ((simulate_merge_guarded ns8 es8 fs8 none "b" "f0" okRes 1 "b" ["a", "b"]
      rfl rfl rfl rfl).2.2.1 rfl (by decide) rfl).1,
   ((simulate_merge_guarded ns8 es8 fs8 none "b" "f0" okRes 1 "b" ["a", "b"]
      rfl rfl rfl rfl).2.2.1 rfl (by decide) rfl).2.1⟩

/-- C2 counterexample: the two effects do not always occur together.  With
the node absent from the document, a fully successful result replaces the
path annotation while writing no value (the document is untouched); with an
error-free result lacking `target_node`, the value is written into the
active frame while the annotation stays unchanged. -/
theorem simulate_merge_partial_cx :
    (simulateMerge (some emptyNodesDoc) none "b" "f0" okRes).1
      = some emptyNodesDoc ∧
    (simulateMerge (some emptyNodesDoc) none "b" "f0" okRes).2
      = some (mkSimPath okRes "b" ["a", "b"]) ∧
    jTruthy okRes.error = false ∧
    (simulateMerge (some doc8) none "b" "f0" noTargetRes).2 = none ∧
    frameEntry ((simulateMerge (some doc8) none "b" "f0" noTargetRes).1.getD
        Json.null) "f0" "b"
      = some (Json.arr [Json.num 4]) ∧
    jTruthy noTargetRes.error = false :=
  ⟨rfl, rfl, rfl, rfl, rfl, rfl⟩

/-! ### C1 — helper lemmas for the rename propagation -/

theorem jGet_some_obj (e : Json) (k : String) (v : Json) (h : jGet e k = some v) :
    ∃ kvs, e = Json.obj kvs := by
  cases e <;> simp_all [jGet]

theorem lookupField_map_val (g : String → Json → Json)
    (kvs : List (String × Json)) (k : String) :
    lookupField (kvs.map fun p => (p.1, g p.1 p.2)) k
      = (lookupField kvs k).map (g k) := by
  induction kvs with
  | nil => rfl
  | cons hd tl ih =>
    obtain ⟨k', v⟩ := hd
    by_cases h : k' = k
    · subst h
      simp [lookupField]
    · simp [lookupField, h, ih]

theorem jGet_renameInEdge (oldL newL : String) (kvs : List (String × Json))
    (k : String) :
    jGet (renameInEdge oldL newL (Json.obj kvs)) k
      = (lookupField kvs k).map (renameFieldVal oldL newL k) := by
  simp [renameInEdge, jGet, lookupField_map_val]

theorem renameSourceElem_any_no_old (oldL newL : String) (hne : newL ≠ oldL)
    (xs : List Json) :
    (xs.map (renameSourceElem oldL newL)).any (fun s => jStrEq (some s) oldL)
      = false := by
  rw [List.any_eq_false]
  intro x hx
  obtain ⟨y, _, rfl⟩ := List.mem_map.mp hx
  cases y with
  | str z =>
    by_cases hz : z = oldL
    · simp [renameSourceElem, hz, jStrEq, hne]
    · simp [renameSourceElem, hz, jStrEq]
  | null => simp [renameSourceElem, jStrEq]
  | bool b => simp [renameSourceElem, jStrEq]
  | num n => simp [renameSourceElem, jStrEq]
  | arr a => simp [renameSourceElem, jStrEq]
  | obj o => simp [renameSourceElem, jStrEq]

theorem renameSourceElem_any_keeps (oldL newL : String) (xs : List Json)
    (h : xs.any (fun s => jStrEq (some s) oldL) = true) :
    (xs.map (renameSourceElem oldL newL)).any (fun s => jStrEq (some s) newL)
      = true := by
  rw [List.any_eq_true] at h
  obtain ⟨x, hx, hs⟩ := h
  have hxs : x = Json.str oldL :=
    (Option.some.injEq _ _).mp (jStrEq_eq (some x) oldL hs)
  rw [List.any_eq_true]
  refine ⟨renameSourceElem oldL newL x, List.mem_map.mpr ⟨x, hx, rfl⟩, ?_⟩
  rw [hxs]
  simp [renameSourceElem, jStrEq]

/-- After the per-edge rename, no reference to the old label remains in an
edge whose source fields are in the plain-array form. -/
theorem renameInEdge_no_old (oldL newL : String) (e : Json) (hne : newL ≠ oldL)
    (ha : edgeArraySources e = true) :
    edgeRefs (renameInEdge oldL newL e) oldL = false := by
  cases e with
  | obj kvs =>
    have htar : jStrEq (jGet (renameInEdge oldL newL (Json.obj kvs)) "target")
        oldL = false := by
      rw [jGet_renameInEdge]
      cases hv : lookupField kvs "target" with
      | none => rfl
      | some v =>
        cases v with
        | str x =>
          by_cases hx : x = oldL
          · simp [renameFieldVal, hx, jStrEq, hne]
          · simp [renameFieldVal, hx, jStrEq]
        | null => simp [renameFieldVal, jStrEq]
        | bool b => simp [renameFieldVal, jStrEq]
        | num n => simp [renameFieldVal, jStrEq]
        | arr a => simp [renameFieldVal, jStrEq]
        | obj o => simp [renameFieldVal, jStrEq]
    have hsrc : ∀ k, k = "source_nodes" ∨ k = "sources" →
        sourceFieldArrayForm (lookupField kvs k) = true →
        sourceFieldRefs (jGet (renameInEdge oldL newL (Json.obj kvs)) k) oldL
          = false := by
      intro k hk hform
      rw [jGet_renameInEdge]
      cases hv : lookupField kvs k with
      | none => rfl
      | some v =>
        have hcond : (k = "source_nodes" || k = "sources") = true := by
          rcases hk with hk | hk <;> simp [hk]
        cases v with
        | arr xs =>
          simp [renameFieldVal, hcond, sourceFieldRefs,
            renameSourceElem_any_no_old oldL newL hne xs]
        | obj o =>
          rw [hv] at hform
          exact absurd hform (by simp [sourceFieldArrayForm])
        | null => simp [renameFieldVal, hcond, sourceFieldRefs]
        | bool b => simp [renameFieldVal, hcond, sourceFieldRefs]
        | num n => simp [renameFieldVal, hcond, sourceFieldRefs]
        | str s => simp [renameFieldVal, hcond, sourceFieldRefs]
    have ha1 : sourceFieldArrayForm (lookupField kvs "source_nodes") = true := by
      have := ha
      simp [edgeArraySources, jGet, jsonIsNull] at this
      exact this.1
    have ha2 : sourceFieldArrayForm (lookupField kvs "sources") = true := by
      have := ha
      simp [edgeArraySources, jGet, jsonIsNull] at this
      exact this.2
    have h1 := hsrc "source_nodes" (Or.inl rfl) ha1
    have h2 := hsrc "sources" (Or.inr rfl) ha2
    simp [edgeRefs, htar, h1, h2]
  | null => rfl
  | bool b => rfl
  | num n => rfl
  | str s => rfl
  | arr a => rfl

/-- Every reference to the old label in an array-form edge becomes a
reference to the new label. -/
theorem renameInEdge_keeps (oldL newL : String) (e : Json)
    (ha : edgeArraySources e = true) (h : edgeRefs e oldL = true) :
    edgeRefs (renameInEdge oldL newL e) newL = true := by
  cases e with
  | obj kvs =>
    unfold edgeRefs at h
    have hone : ∀ k, k = "source_nodes" ∨ k = "sources" →
          sourceFieldRefs (jGet (Json.obj kvs) k) oldL = true →
          sourceFieldRefs (jGet (renameInEdge oldL newL (Json.obj kvs)) k) newL
            = true := by
        intro k hk href
        have hcond : (k = "source_nodes" || k = "sources") = true := by
          rcases hk with hk | hk <;> simp [hk]
        rw [jGet_renameInEdge]
        cases hv : lookupField kvs k with
        | none =>
          rw [show jGet (Json.obj kvs) k = lookupField kvs k from rfl, hv] at href
          exact absurd href (by simp [sourceFieldRefs])
        | some v =>
          rw [show jGet (Json.obj kvs) k = lookupField kvs k from rfl, hv] at href
          cases v with
          | arr xs =>
            simp only [sourceFieldRefs] at href
            simp [renameFieldVal, hcond, sourceFieldRefs,
              renameSourceElem_any_keeps oldL newL xs href]
          | obj o =>
            exfalso
            have haa := ha
            simp [edgeArraySources, jGet, jsonIsNull] at haa
            rcases hk with hk | hk <;> rw [hk] at hv
            · rw [hv] at haa
              simp [sourceFieldArrayForm] at haa
            · rw [hv] at haa
              simp [sourceFieldArrayForm] at haa
          | null => exact absurd href (by simp [sourceFieldRefs])
          | bool b => exact absurd href (by simp [sourceFieldRefs])
          | num n => exact absurd href (by simp [sourceFieldRefs])
          | str s => exact absurd href (by simp [sourceFieldRefs])
    rcases Bool.or_eq_true _ _ |>.mp h with h12 | hs2
    · rcases Bool.or_eq_true _ _ |>.mp h12 with htar | hs1
      · have hget : jGet (Json.obj kvs) "target" = some (Json.str oldL) :=
          jStrEq_eq _ _ htar
        have hlf : lookupField kvs "target" = some (Json.str oldL) := hget
        have hnew : jGet (renameInEdge oldL newL (Json.obj kvs)) "target"
            = some (Json.str newL) := by
          rw [jGet_renameInEdge, hlf]
          simp [renameFieldVal]
        simp [edgeRefs, hnew, jStrEq]
      · have := hone "source_nodes" (Or.inl rfl) hs1
        simp [edgeRefs, this]
    · have := hone "sources" (Or.inr rfl) hs2
      simp [edgeRefs, this]
  | null => exact absurd h (by simp [edgeRefs, jGet, jStrEq, sourceFieldRefs])
  | bool b => exact absurd h (by simp [edgeRefs, jGet, jStrEq, sourceFieldRefs])
  | num n => exact absurd h (by simp [edgeRefs, jGet, jStrEq, sourceFieldRefs])
  | str s => exact absurd h (by simp [edgeRefs, jGet, jStrEq, sourceFieldRefs])
  | arr a => exact absurd h (by simp [edgeRefs, jGet, jStrEq, sourceFieldRefs])

theorem moveKey_old_none (fd : Json) (oldL newL : String) :
    jGet (moveKey fd oldL newL) oldL = none := by
  cases hv : jGet fd oldL with
  | none => simp [moveKey, hv]
  | some w =>
    obtain ⟨kvs, rfl⟩ := jGet_some_obj fd oldL w hv
    have hv' : lookupField kvs oldL = some w := hv
    simp [moveKey, hv', jErase, jSet, jGet, lookupField_erase_self]

theorem moveKey_new (fd : Json) (oldL newL : String) (w : Json)
    (hne : newL ≠ oldL) (hv : jGet fd oldL = some w) :
    jGet (moveKey fd oldL newL) newL = some w := by
  obtain ⟨kvs, rfl⟩ := jGet_some_obj fd oldL w hv
  have hv' : lookupField kvs oldL = some w := hv
  simp only [moveKey, jGet, hv']
  simp [jErase, jSet, jGet, lookupField_erase_ne _ _ _ hne,
    lookupField_insert_self]

/-- C1 (amended): renaming a node via the details-view label update rewrites
the node's label, every edge's array-form `source_nodes`/`sources` entries
and strict-equal `target`, and every frame entry key, and sets the active
selection to the new label; afterwards no edge whose sources are stored as
plain arrays references the old label, and every edge that referenced it now
references the new label.  Edges whose sources are stored as an object
mapping handle to label keep those source references unchanged (the rename
loop only rewrites array-form source fields).  The hypotheses require the
find to succeed and every edge to be a non-`null` array-form edge — on a
`null` node element before the target or a `null` edge element the handler
instead throws a TypeError and changes nothing (`renameNode` returns
`none`). -/
theorem rename_propagation
    (ns es : List Json) (fs : List (String × Json)) (oldL newL : String)
    (i : Nat)
    (hfind : findNodeIdx ns oldL = Except.ok (some i))
    (hne : newL ≠ oldL)
    (hasrc : ∀ e ∈ es, edgeArraySources e = true) :
    renameNode (docOf ns es fs) oldL newL
        = some (Json.obj [
            ("nodes", Json.arr (modifyAt ns i
              (fun nd => jSet nd "label" (Json.str newL)))),
            ("edges", Json.arr (es.map (renameInEdge oldL newL))),
            ("frames", Json.obj (fs.map
              (fun p => (p.1, moveKey p.2 oldL newL))))],
           some ("NODE", newL)) ∧
    anyEdgeRefs (Json.obj [
        ("nodes", Json.arr (modifyAt ns i
          (fun nd => jSet nd "label" (Json.str newL)))),
        ("edges", Json.arr (es.map (renameInEdge oldL newL))),
        ("frames", Json.obj (fs.map
          (fun p => (p.1, moveKey p.2 oldL newL))))]) oldL = false ∧
    (∀ e ∈ es, edgeRefs e oldL = true →
      edgeRefs (renameInEdge oldL newL e) newL = true) ∧
    (∀ p : String × Json, p ∈ fs →
      jGet (moveKey p.2 oldL newL) oldL = none ∧
      (∀ w, jGet p.2 oldL = some w →
        jGet (moveKey p.2 oldL newL) newL = some w)) := by
  have hnulls : es.any jsonIsNull = false := by
    rw [List.any_eq_false]
    intro e he
    have hE := hasrc e he
    cases e with
    | null => simp [edgeArraySources, jsonIsNull] at hE
    | bool b => simp [jsonIsNull]
    | num n => simp [jsonIsNull]
    | str s => simp [jsonIsNull]
    | arr a => simp [jsonIsNull]
    | obj o => simp [jsonIsNull]
  have hmain : renameNode (docOf ns es fs) oldL newL
      = some (Json.obj [
          ("nodes", Json.arr (modifyAt ns i
            (fun nd => jSet nd "label" (Json.str newL)))),
          ("edges", Json.arr (es.map (renameInEdge oldL newL))),
          ("frames", Json.obj (fs.map
            (fun p => (p.1, moveKey p.2 oldL newL))))],
         some ("NODE", newL)) := by
    simp only [renameNode]
    rw [show findNodeIdx (getNodesEnsured (docOf ns es fs)).2 oldL
      = Except.ok (some i) from hfind]
    rw [show (getEdgesEnsured (getNodesEnsured (docOf ns es fs)).1).2.any
      jsonIsNull = false from hnulls]
    rfl
  refine ⟨hmain, ?_, ?_, ?_⟩
  · have hlist : ∀ e' ∈ es.map (renameInEdge oldL newL),
        edgeRefs e' oldL = false := by
      intro e' he'
      obtain ⟨e, he, rfl⟩ := List.mem_map.mp he'
      exact renameInEdge_no_old oldL newL e hne (hasrc e he)
    unfold anyEdgeRefs
    rw [show jGet (Json.obj [
        ("nodes", Json.arr (modifyAt ns i
          (fun nd => jSet nd "label" (Json.str newL)))),
        ("edges", Json.arr (es.map (renameInEdge oldL newL))),
        ("frames", Json.obj (fs.map
          (fun p => (p.1, moveKey p.2 oldL newL))))]) "edges"
      = some (Json.arr (es.map (renameInEdge oldL newL))) from rfl]
    rw [List.any_eq_false]
    intro x hx
    simp [hlist x hx]
  · intro e he h
    exact renameInEdge_keeps oldL newL e (hasrc e he) h
  · intro p _
    exact ⟨moveKey_old_none p.2 oldL newL,
      fun w hw => moveKey_new p.2 oldL newL w hne hw⟩

theorem rename_propagation_witness :
    (renameNode (docOf ns8 es8 fs8) "a" "z").map Prod.snd
      = some (some ("NODE", "z")) ∧
    (renameNode (docOf ns8 es8 fs8) "a" "z").map
        (fun p => anyEdgeRefs p.1 "a")
      = some false := by
  constructor
  · rw [(rename_propagation ns8 es8 fs8 "a" "z" 0 rfl (by decide)
      (by decide)).1]
    rfl
  · rw [(rename_propagation ns8 es8 fs8 "a" "z" 0 rfl (by decide)
      (by decide)).1]
    exact congrArg some (rename_propagation ns8 es8 fs8 "a" "z" 0 rfl
      (by decide) (by decide)).2.1

/-- C1 counterexample: renaming node `"a"` to `"b"` in a document whose only
edge stores its sources as the object `{h: "a"}` performs the rename (the
selection moves to `"b"`) yet leaves an edge still referencing `"a"` — the
claim's "zero edges reference the old label ... regardless of whether its
sources are stored as a plain array or as an object" fails on the object
form. -/
theorem rename_object_sources_cx :
    (renameNode rdocObjSources "a" "b").map Prod.snd
      = some (some ("NODE", "b")) ∧
    (renameNode rdocObjSources "a" "b").map (fun p => anyEdgeRefs p.1 "a")
      = some true :=
  ⟨rfl, rfl⟩
